import Mathlib

/-
  Verification of the Lore multi-tenant lesson server
  (src/lore/server: auth.py, middleware.py, models.py, routes/lessons.py,
  routes/keys.py) against its natural-language specification.

  Shallow embedding conventions:
  * timestamps are rationals (seconds since epoch / monotonic seconds);
  * SQL float arithmetic is carried out over the rationals, with the two
    transcendental database functions (exponential, pgvector cosine
    distance) abstracted as parameters bundled in SqlFns: the claims
    compared here apply those functions to syntactically derived
    arguments, so nothing is lost by the abstraction;
  * a SQL table is a list of row structures; SELECT ... ORDER BY with a
    non-total key is modelled nondeterministically (a predicate that
    accepts any output list consistent with the query);
  * HTTP error results are (status, error_code) pairs, where error_code is
    what the installed exception handlers put in the response envelope;
  * Python round(x, 6) is modelled as round-to-nearest at 6 decimals.
-/

namespace Lore

/-! ## Data model: rows (lessons table, api_keys table) -/

/-- A row of the lessons table (columns used by the handlers; the
reputation / quality-signal columns not touched by the verified routes
are omitted).  Tags and meta are JSON columns, modelled as a list of
strings and an association list. -/
structure LessonRow where
  id : String
  orgId : String
  problem : String
  resolution : String
  context : Option String
  tags : List String
  confidence : ℚ
  source : Option String
  project : Option String
  embedding : Option (List ℚ)
  createdAt : ℚ
  updatedAt : ℚ
  expiresAt : Option ℚ
  upvotes : ℤ
  downvotes : ℤ
  meta : List (String × String)
deriving DecidableEq, Repr

/-- A row of the api_keys table (columns selected by the resolver and the
revoke handler; the display-only name / key-prefix / last-used columns
are omitted). -/
structure KeyRow where
  id : String
  orgId : String
  keyHash : String
  project : Option String
  isRoot : Bool
  role : Option String
  revokedAt : Option ℚ
deriving DecidableEq, Repr

/-- auth.AuthContext: the resolved principal injected into endpoints. -/
structure AuthContext where
  orgId : String
  project : Option String
  isRoot : Bool
  keyId : String
  role : String
deriving DecidableEq, Repr

/-! ## Error envelope (middleware.install_error_handlers) -/

/-- The status-to-code map of the generic HTTPException handler in
middleware.py. -/
def httpErrorCode (status : Nat) : String :=
  if status = 400 then "bad_request"
  else if status = 401 then "unauthorized"
  else if status = 403 then "forbidden"
  else if status = 404 then "not_found"
  else if status = 405 then "method_not_allowed"
  else if status = 409 then "conflict"
  else if status = 413 then "request_too_large"
  else if status = 422 then "validation_error"
  else if status = 429 then "rate_limit_exceeded"
  else "error"

/-- An HTTP error as seen on the wire: status code plus the error code
placed in the envelope. -/
abbrev HttpErr := Nat × String

/-! ## Rate limiter (middleware.RateLimiter) -/

/-- middleware.RateLimiter configuration (defaults 100 requests / 60 s). -/
structure RateLimiter where
  maxRequests : Nat
  windowSeconds : ℚ
deriving DecidableEq, Repr

/-- RateLimiter.is_allowed on one key's recorded timestamp list.
Mirrors the method body: pop old entries from the front while the head is
strictly older than now - window, reject when the number of remaining
entries reaches max_requests (with retry_after computed by Python int()
truncation of oldest - window_start, plus one, clamped to at least 1),
otherwise append now.  Returns ((allowed, retry_after), new timestamp
list). -/
def isAllowed (rl : RateLimiter) (timestamps : List ℚ) (now : ℚ) :
    (Bool × ℤ) × List ℚ :=
  let windowStart := now - rl.windowSeconds
  let kept := timestamps.dropWhile (fun t => decide (t < windowStart))
  if rl.maxRequests ≤ kept.length then
    let retryAfter := Int.floor (kept.headD windowStart - windowStart) + 1
    ((false, max 1 retryAfter), kept)
  else
    ((true, 0), kept ++ [now])

/-- Rate limiter middleware state: the per-key timestamp map
(defaultdict(list)). -/
structure LimiterState where
  requests : List (String × List ℚ)
deriving DecidableEq, Repr

/-- Lookup of a key in the limiter map (missing keys read as []). -/
def LimiterState.get (st : LimiterState) (key : String) : List ℚ :=
  ((st.requests.find? (fun e => e.1 == key)).map (fun e => e.2)).getD []

/-- Store the (mutated) timestamp list back for a key. -/
def LimiterState.put (st : LimiterState) (key : String) (ts : List ℚ) :
    LimiterState :=
  ⟨(st.requests.filter (fun e => e.1 != key)) ++ [(key, ts)]⟩

/-- RateLimitMiddleware.dispatch: only requests whose Authorization header
starts with "Bearer " consult the limiter (keyed by the raw token after
the 7-character marker); the rest pass straight through.  The Python
str.startswith / slicing is modelled on the header's character sequence.
Result: none = forwarded to the handler, some r = the 429 response with
Retry-After r. -/
def dispatchRateLimit (rl : RateLimiter) (st : LimiterState)
    (authHeader : String) (now : ℚ) : Option ℤ × LimiterState :=
  if "Bearer ".data.isPrefixOf authHeader.data then
    let key : String := ⟨authHeader.data.drop 7⟩
    let res := isAllowed rl (st.get key) now
    let st' := st.put key res.2
    if res.1.1 then (none, st') else (some res.1.2, st')
  else
    (none, st)

/-- A whole sequence of requests through the middleware; returns the list
of middleware decisions and the final limiter state. -/
def dispatchMany (rl : RateLimiter) :
    LimiterState → List (String × ℚ) → List (Option ℤ) × LimiterState
  | st, [] => ([], st)
  | st, (hdr, now) :: rest =>
    let r := dispatchRateLimit rl st hdr now
    let rec' := dispatchMany rl r.2 rest
    (r.1 :: rec'.1, rec'.2)

/-! ## Credential resolver (auth.py) -/

/-- auth._map_api_key_role: the explicit role column wins when truthy
(non-empty string); otherwise root keys are admin and the rest writer. -/
def mapApiKeyRole (isRoot : Bool) (dbRole : Option String) : String :=
  match dbRole with
  | some r => if r = "" then (if isRoot then "admin" else "writer") else r
  | none => if isRoot then "admin" else "writer"

/-- auth._validate_row: reject revoked rows with key_revoked, otherwise
build the AuthContext. -/
def validateRow (row : KeyRow) : Except String AuthContext :=
  if row.revokedAt.isSome then .error "key_revoked"
  else .ok ⟨row.orgId, row.project, row.isRoot, row.id,
           mapApiKeyRole row.isRoot row.role⟩

/-- auth.require_role(*roles): 403 insufficient_role when the resolved
role is not among the allowed ones (AuthError carries its own error
code, which the dedicated AuthError handler echoes verbatim). -/
def requireRole (roles : List String) (auth : AuthContext) :
    Except HttpErr AuthContext :=
  if roles.contains auth.role then .ok auth
  else .error (403, "insufficient_role")

/-- Resolver state: api_keys table plus the in-memory key cache
(hash, row, monotonic insertion time). -/
structure AuthState where
  db : List KeyRow
  cache : List (String × KeyRow × ℚ)
deriving DecidableEq, Repr

/-- auth.CACHE_TTL_SECONDS. -/
def CACHE_TTL : ℚ := 60

/-- auth.CACHE_MAX_SIZE. -/
def CACHE_MAX : Nat := 10000

/-- Insertion sort used to model sorting with an arbitrary boolean key
comparison (cache eviction order, export ORDER BY). -/
def insertB {α : Type} (le : α → α → Bool) (a : α) : List α → List α
  | [] => [a]
  | b :: l => if le a b then a :: b :: l else b :: insertB le a l

/-- Sort a list with a boolean comparison. -/
def sortB {α : Type} (le : α → α → Bool) : List α → List α
  | [] => []
  | a :: l => insertB le a (sortB le l)

/-- Cache eviction in auth._resolve_api_key: when the cache is full, the
oldest half (by insertion timestamp) is deleted. -/
def cacheEvictIfFull (cache : List (String × KeyRow × ℚ)) :
    List (String × KeyRow × ℚ) :=
  if CACHE_MAX ≤ cache.length then
    let sortedEntries := sortB (fun a b => decide (a.2.2 ≤ b.2.2)) cache
    let victims := (sortedEntries.take (cache.length / 2)).map (fun e => e.1)
    cache.filter (fun e => !(victims.contains e.1))
  else cache

/-- Dict assignment into the cache: replace any entry under the hash. -/
def cacheInsert (cache : List (String × KeyRow × ℚ)) (h : String)
    (row : KeyRow) (now : ℚ) : List (String × KeyRow × ℚ) :=
  (cache.filter (fun e => e.1 != h)) ++ [(h, row, now)]

/-- The database-lookup branch of auth._resolve_api_key: fetch by hash,
invalid_api_key when absent or when the constant-time comparison fails,
otherwise cache the row (evicting if full) and validate it. -/
def resolveMiss (now : ℚ) (st : AuthState) (keyHash : String) :
    Except String AuthContext × AuthState :=
  match st.db.find? (fun r => r.keyHash == keyHash) with
  | none => (.error "invalid_api_key", st)
  | some row =>
    if row.keyHash ≠ keyHash then (.error "invalid_api_key", st)
    else
      (validateRow row,
       { st with cache := cacheInsert (cacheEvictIfFull st.cache) keyHash row now })

/-- auth._resolve_api_key on the SHA-256 hash of the presented key: serve
from the cache while the entry is fresh, otherwise fall through to the
database. -/
def resolveApiKey (now : ℚ) (st : AuthState) (keyHash : String) :
    Except String AuthContext × AuthState :=
  match st.cache.find? (fun e => e.1 == keyHash) with
  | some entry =>
    if now - entry.2.2 < CACHE_TTL then (validateRow entry.2.1, st)
    else resolveMiss now st keyHash
  | none => resolveMiss now st keyHash

/-! ## Key management (routes/keys.py) -/

/-- keys._require_root: plain HTTPException(403, "Root key required"),
which the generic handler renders with error code `forbidden`. -/
def requireRoot (auth : AuthContext) : Except HttpErr Unit :=
  if auth.isRoot then .ok () else .error (403, httpErrorCode 403)

/-- keys.revoke_key: root gate, locked fetch of the target row by id and
org, refuse when already revoked, refuse when the target is the last
active root key of the org, otherwise set revoked_at and drop the
target's hash from the resolver cache. -/
def revokeKey (now : ℚ) (auth : AuthContext) (st : AuthState)
    (keyId : String) : Except HttpErr AuthState :=
  match requireRoot auth with
  | .error e => .error e
  | .ok _ =>
    match st.db.find? (fun r => r.id == keyId && r.orgId == auth.orgId) with
    | none => .error (404, httpErrorCode 404)
    | some target =>
      if target.revokedAt.isSome then .error (400, httpErrorCode 400)
      else if target.isRoot &&
          decide ((st.db.countP (fun r =>
            r.orgId == auth.orgId && r.isRoot && r.revokedAt.isNone)) ≤ 1) then
        .error (400, httpErrorCode 400)
      else
        .ok { db := st.db.map (fun r =>
                if r.id == keyId then { r with revokedAt := some now } else r),
              cache := st.cache.filter (fun e => e.1 != target.keyHash) }

/-- Apply a sequence of revoke calls, keeping the previous state whenever
a call errors (the transaction rolls back). -/
def applyRevokes (st : AuthState) : List (ℚ × AuthContext × String) → AuthState
  | [] => st
  | (now, auth, keyId) :: rest =>
    match revokeKey now auth st keyId with
    | .ok st' => applyRevokes st' rest
    | .error _ => applyRevokes st rest

/-- An org has at least one active root credential. -/
def hasActiveRoot (db : List KeyRow) (org : String) : Prop :=
  0 < db.countP (fun r => r.orgId == org && r.isRoot && r.revokedAt.isNone)

/-! ## Lesson engine (routes/lessons.py, models.py) -/

/-- models.LessonCreateRequest after pydantic validation. -/
structure LessonCreateRequest where
  problem : String
  resolution : String
  context : Option String
  tags : List String
  confidence : ℚ
  source : Option String
  project : Option String
  embedding : Option (List ℚ)
  expiresAt : Option ℚ
  meta : List (String × String)
deriving DecidableEq, Repr

/-- create_lesson: the inserted row.  A project-scoped key forces its own
project over whatever the body claims; votes start at zero and both
timestamps are the request time. -/
def createLessonRow (auth : AuthContext) (body : LessonCreateRequest)
    (now : ℚ) (lessonId : String) : LessonRow :=
  { id := lessonId
    orgId := auth.orgId
    problem := body.problem
    resolution := body.resolution
    context := body.context
    tags := body.tags
    confidence := body.confidence
    source := body.source
    project := if auth.project.isSome then auth.project else body.project
    embedding := body.embedding
    createdAt := now
    updatedAt := now
    expiresAt := body.expiresAt
    upvotes := 0
    downvotes := 0
    meta := body.meta }

/-- lessons._scope_filter as a row predicate: org must match, and a
project-scoped key additionally requires its project. -/
def scopeMatch (auth : AuthContext) (r : LessonRow) : Bool :=
  match auth.project with
  | some p => r.orgId == auth.orgId && r.project == some p
  | none => r.orgId == auth.orgId

/-- get_lesson: fetch by id under the scope filter; a miss is a plain 404
(rendered not_found), never a 403. -/
def getLesson (db : List LessonRow) (auth : AuthContext) (lessonId : String) :
    Except HttpErr LessonRow :=
  match db.find? (fun r => r.id == lessonId && scopeMatch auth r) with
  | some row => .ok row
  | none => .error (404, httpErrorCode 404)

/-- A validated vote value in models.LessonUpdateRequest: the string form
is restricted by the field validator to "+1" / "-1", the integer form is
passed through unchecked. -/
inductive VoteVal where
  | plus1 : VoteVal
  | minus1 : VoteVal
  | intVal : ℤ → VoteVal
deriving DecidableEq, Repr

/-- models.LessonUpdateRequest after pydantic validation. -/
structure LessonUpdateRequest where
  confidence : Option ℚ
  tags : Option (List String)
  upvotes : Option VoteVal
  downvotes : Option VoteVal
  meta : Option (List (String × String))
deriving DecidableEq, Repr

/-- The SET expression built for a vote column in update_lesson: the
string forms become atomic column = column + delta, the integer form a
direct assignment. -/
def applyVote (cur : ℤ) : Option VoteVal → ℤ
  | none => cur
  | some .plus1 => cur + 1
  | some .minus1 => cur - 1
  | some (.intVal k) => k

/-- update_lesson builds set_parts from the present body fields;
an empty body yields no parts. -/
def hasUpdateFields (body : LessonUpdateRequest) : Bool :=
  body.confidence.isSome || body.tags.isSome || body.meta.isSome ||
    body.upvotes.isSome || body.downvotes.isSome

/-- The row produced by update_lesson's UPDATE ... SET on one row. -/
def applyUpdate (r : LessonRow) (body : LessonUpdateRequest) (now : ℚ) :
    LessonRow :=
  { r with
    confidence := body.confidence.getD r.confidence
    tags := body.tags.getD r.tags
    meta := body.meta.getD r.meta
    upvotes := applyVote r.upvotes body.upvotes
    downvotes := applyVote r.downvotes body.downvotes
    updatedAt := now }

/-- update_lesson: 422 on an empty body, 404 on a scoped miss, otherwise
update the matching row in place and return it. -/
def updateLesson (db : List LessonRow) (auth : AuthContext)
    (lessonId : String) (body : LessonUpdateRequest) (now : ℚ) :
    Except HttpErr (LessonRow × List LessonRow) :=
  if !hasUpdateFields body then .error (422, httpErrorCode 422)
  else
    match db.find? (fun r => r.id == lessonId && scopeMatch auth r) with
    | none => .error (404, httpErrorCode 404)
    | some row =>
      .ok (applyUpdate row body now,
           db.map (fun r =>
             if r.id == lessonId && scopeMatch auth r then applyUpdate r body now
             else r))

/-! ## Export / import (routes/lessons.py, models.py) -/

/-- export_lessons: all in-scope rows, ordered by created_at, with
embeddings included (the export item carries every LessonRow field). -/
def exportLessons (db : List LessonRow) (auth : AuthContext) :
    List LessonRow :=
  sortB (fun a b => decide (a.createdAt ≤ b.createdAt))
    (db.filter (scopeMatch auth))

/-- models.LessonImportItem after pydantic validation: the embedding is a
required field of exactly 384 entries. -/
structure LessonImportItem where
  id : Option String
  problem : String
  resolution : String
  context : Option String
  tags : List String
  confidence : ℚ
  source : Option String
  project : Option String
  embedding : List ℚ
  expiresAt : Option ℚ
  upvotes : ℤ
  downvotes : ℤ
  meta : List (String × String)
deriving DecidableEq, Repr

/-- Feeding an exported lesson back through the import request model:
validation fails unless the row has a 384-dimensional embedding. -/
def exportItemToImportItem (r : LessonRow) : Option LessonImportItem :=
  match r.embedding with
  | none => none
  | some e =>
    if e.length = 384 then
      some { id := some r.id, problem := r.problem, resolution := r.resolution,
             context := r.context, tags := r.tags, confidence := r.confidence,
             source := r.source, project := r.project, embedding := e,
             expiresAt := r.expiresAt, upvotes := r.upvotes,
             downvotes := r.downvotes, meta := r.meta }
    else none

/-- The row INSERT ... ON CONFLICT in import_lessons inserts for a fresh
id: org is the caller's, created_at and updated_at are both the import
time, votes come from the item. -/
def importedRow (auth : AuthContext) (now : ℚ) (lessonId : String)
    (item : LessonImportItem) : LessonRow :=
  { id := lessonId
    orgId := auth.orgId
    problem := item.problem
    resolution := item.resolution
    context := item.context
    tags := item.tags
    confidence := item.confidence
    source := item.source
    project := if auth.project.isSome then auth.project else item.project
    embedding := some item.embedding
    createdAt := now
    updatedAt := now
    expiresAt := item.expiresAt
    upvotes := item.upvotes
    downvotes := item.downvotes
    meta := item.meta }

/-- The ON CONFLICT (id) DO UPDATE branch: overwrite the content columns
and updated_at (created_at and org are untouched), guarded by the WHERE
lessons.org_id = EXCLUDED.org_id predicate. -/
def upsertExisting (auth : AuthContext) (now : ℚ) (item : LessonImportItem)
    (r : LessonRow) : LessonRow :=
  { r with
    problem := item.problem
    resolution := item.resolution
    context := item.context
    tags := item.tags
    confidence := item.confidence
    source := item.source
    project := if auth.project.isSome then auth.project else item.project
    embedding := some item.embedding
    updatedAt := now
    expiresAt := item.expiresAt
    upvotes := item.upvotes
    downvotes := item.downvotes
    meta := item.meta }

/-- One iteration of the import loop: mint an id when the item has none,
insert, and on an id conflict update only rows of the caller's own org
(the WHERE predicate makes a cross-org conflict a silent no-op). -/
def importOne (auth : AuthContext) (now : ℚ) (freshId : String)
    (db : List LessonRow) (item : LessonImportItem) : List LessonRow :=
  let lessonId := item.id.getD freshId
  match db.find? (fun r => r.id == lessonId) with
  | none => db ++ [importedRow auth now lessonId item]
  | some existing =>
    if existing.orgId == auth.orgId then
      db.map (fun r =>
        if r.id == lessonId then upsertExisting auth now item r else r)
    else db

/-- import_lessons: fold the upsert over the items (freshIds supplies the
ULIDs minted for id-less items). -/
def importLessons (auth : AuthContext) (now : ℚ) :
    List String → List LessonRow → List LessonImportItem → List LessonRow
  | _, db, [] => db
  | freshIds, db, item :: rest =>
    importLessons auth now freshIds.tail
      (importOne auth now (freshIds.headD "") db item) rest

/-- Conversion of a whole exported payload through the import request
model: none as soon as one lesson fails the item validation. -/
def importItemsOf : List LessonRow → Option (List LessonImportItem)
  | [] => some []
  | r :: l =>
    match exportItemToImportItem r, importItemsOf l with
    | some i, some is => some (i :: is)
    | _, _ => none

/-- The export-then-import round trip: export one org's lessons, convert
them through the import request model (none when some lesson cannot be
expressed as an import item), and import into a destination table. -/
def roundTrip (srcDb : List LessonRow) (authExp authImp : AuthContext)
    (now : ℚ) (destDb : List LessonRow) : Option (List LessonRow) :=
  (importItemsOf (exportLessons srcDb authExp)).map
    (fun items => importLessons authImp now [] destDb items)

/-! ## Ranked search (search_lessons in routes/lessons.py) -/

/-- The two real-valued functions the search SQL delegates to the
database: exp and the pgvector cosine-distance operator.  They are
abstract parameters of the embedding; the claims under scrutiny only
relate their syntactic arguments. -/
structure SqlFns where
  ex : ℚ → ℚ
  cd : List ℚ → List ℚ → ℚ

/-- models.LessonSearchRequest after pydantic validation (embedding of
length 384, 1 ≤ limit ≤ 50, 0 ≤ min_confidence ≤ 1). -/
structure LessonSearchRequest where
  embedding : List ℚ
  tags : Option (List String)
  project : Option String
  limit : Nat
  minConfidence : ℚ
deriving DecidableEq, Repr

/-- The effective project of a search: the key's scope overrides the
body. -/
def searchProject (auth : AuthContext) (body : LessonSearchRequest) :
    Option String :=
  if auth.project.isSome then auth.project else body.project

/-- The WHERE clause built by search_lessons: org, effective project (when
set), jsonb tag containment (when the body's tag list is truthy),
expiry, and a present embedding. -/
def searchCandidate (auth : AuthContext) (body : LessonSearchRequest)
    (now : ℚ) (r : LessonRow) : Bool :=
  r.orgId == auth.orgId &&
  (match searchProject auth body with
   | some p => r.project == some p
   | none => true) &&
  (match body.tags with
   | some ts => if ts.isEmpty then true else ts.all (fun t => r.tags.contains t)
   | none => true) &&
  (match r.expiresAt with
   | some e => decide (now < e)
   | none => true) &&
  r.embedding.isSome

/-- The score column of the search SQL, transcribed term by term:
(1 - (embedding <=> query)) * confidence
  * exp(-0.01 * EXTRACT(EPOCH FROM now() - updated_at) / 86400.0)
  * GREATEST(1.0 + (upvotes - downvotes) * 0.1, 0.1). -/
def scoreSQL (F : SqlFns) (now : ℚ) (body : LessonSearchRequest)
    (r : LessonRow) : ℚ :=
  (1 - F.cd (r.embedding.getD []) body.embedding) * r.confidence *
    F.ex (-(1 / 100) * (now - r.updatedAt) / 86400) *
    max (1 + ((r.upvotes : ℚ) - (r.downvotes : ℚ)) * (1 / 10)) (1 / 10)

/-- Python round(x, 6), modelled as round-to-nearest at 6 decimals. -/
def round6 (x : ℚ) : ℚ := ((round (x * 1000000) : ℤ) : ℚ) / 1000000

/-- The Python post-processing of the fetched rows: skip rows whose score
is below min_confidence, and emit each kept row with its score clamped
to ≥ 0 and rounded to 6 decimals. -/
def shapeResults (F : SqlFns) (now : ℚ) (body : LessonSearchRequest)
    (dbRows : List LessonRow) : List (LessonRow × ℚ) :=
  dbRows.filterMap (fun r =>
    if scoreSQL F now body r < body.minConfidence then none
    else some (r, round6 (max (scoreSQL F now body r) 0)))

/-- A list is weakly sorted by descending score. -/
def scoreSortedDesc (F : SqlFns) (now : ℚ) (body : LessonSearchRequest)
    (l : List LessonRow) : Prop :=
  l.Sorted (fun a b => scoreSQL F now body b ≤ scoreSQL F now body a)

/-- Admissible result of the search SQL (SELECT ... ORDER BY score DESC
LIMIT $n): any permutation of the candidate rows that is weakly sorted
by descending score, truncated to the limit.  ORDER BY on a non-unique
key leaves the relative order of tied rows to the database. -/
def dbOutput (F : SqlFns) (now : ℚ) (auth : AuthContext)
    (body : LessonSearchRequest) (table : List LessonRow)
    (out : List LessonRow) : Prop :=
  ∃ sorted : List LessonRow,
    sorted.Perm (table.filter (searchCandidate auth body now)) ∧
    scoreSortedDesc F now body sorted ∧
    out = sorted.take body.limit

/-! ### Spec-side definitions for search (written from the claim text,
to be compared with the embedding of the code) -/

/-- Modelled from the claim text of C1: the candidate filter in the
spec's words — same tenant, project match if scoped, not expired,
embedding present, row's tags a superset of the requested tags. -/
def candidateSpecC1 (auth : AuthContext) (body : LessonSearchRequest)
    (now : ℚ) (r : LessonRow) : Prop :=
  r.orgId = auth.orgId ∧
  (∀ p, searchProject auth body = some p → r.project = some p) ∧
  (r.expiresAt = none ∨ ∃ e, r.expiresAt = some e ∧ now < e) ∧
  r.embedding ≠ none ∧
  (∀ ts, body.tags = some ts → ∀ t ∈ ts, t ∈ r.tags)

/-- Modelled from the claim text of C1: age in days measured from
updated_at. -/
def ageDays (now : ℚ) (r : LessonRow) : ℚ := (now - r.updatedAt) / 86400

/-- Modelled from the claim text of C1: the published scoring formula
(1 - cosine_distance) x confidence x exp(-0.01 age_days)
x max(1.0 + 0.1 (upvotes - downvotes), 0.1). -/
def scoreSpec (F : SqlFns) (now : ℚ) (body : LessonSearchRequest)
    (r : LessonRow) : ℚ :=
  (1 - F.cd (r.embedding.getD []) body.embedding) * r.confidence *
    F.ex (-(1 / 100) * ageDays now r) *
    max (1 + (1 / 10) * ((r.upvotes : ℚ) - (r.downvotes : ℚ))) (1 / 10)

/-- Modelled from the claim text of C2: the total result order the claim
asserts — score descending, ties by updated_at descending, then id
ascending (ids compared lexicographically on their character
sequences). -/
def specOrderLE (F : SqlFns) (now : ℚ) (body : LessonSearchRequest)
    (a b : LessonRow) : Bool :=
  decide (scoreSQL F now body b < scoreSQL F now body a) ||
    (decide (scoreSQL F now body a = scoreSQL F now body b) &&
      (decide (b.updatedAt < a.updatedAt) ||
        (decide (a.updatedAt = b.updatedAt) &&
          decide (a.id.data < b.id.data ∨ a.id.data = b.id.data))))

/-- Modelled from the claim text of C2: order all candidates by the
claimed key, filter to score ≥ min_confidence, then truncate to the
limit. -/
def specSearchC2 (F : SqlFns) (now : ℚ) (auth : AuthContext)
    (body : LessonSearchRequest) (table : List LessonRow) :
    List LessonRow :=
  ((sortB (specOrderLE F now body)
      (table.filter (searchCandidate auth body now))).filter
    (fun r => decide (body.minConfidence ≤ scoreSQL F now body r))).take
    body.limit

/-! ## Helper lemmas -/

/-- A successful find? splits the list around the found element, with
every earlier element failing the predicate. -/
theorem findSplit {α : Type} {p : α → Bool} :
    ∀ {l : List α} {a : α}, l.find? p = some a →
      ∃ l1 l2, l = l1 ++ a :: l2 ∧ p a = true ∧ ∀ x ∈ l1, p x = false := by
  intro l
  induction l with
  | nil => intro a h; simp [List.find?] at h
  | cons b t ih =>
    intro a h
    by_cases hb : p b = true
    · refine ⟨[], t, ?_, ?_, by simp⟩
      · simp [List.find?, hb] at h
        simp [h]
      · simp [List.find?, hb] at h
        simpa [← h]
    · have hb' : p b = false := by simpa using hb
      rw [List.find?, hb'] at h
      obtain ⟨l1, l2, heq, hpa, hfail⟩ := ih h
      exact ⟨b :: l1, l2, by simp [heq], hpa, by
        intro x hx
        rcases List.mem_cons.mp hx with rfl | hx'
        · exact hb'
        · exact hfail x hx'⟩

/-- find? over an append whose first part has no hits. -/
theorem find?_append_of_none {α : Type} {p : α → Bool} {l1 : List α}
    (h : ∀ x ∈ l1, p x = false) (l2 : List α) :
    (l1 ++ l2).find? p = l2.find? p := by
  induction l1 with
  | nil => simp
  | cons a t ih =>
    have ha : p a = false := h a (by simp)
    simp only [List.cons_append, List.find?, ha]
    exact ih (fun x hx => h x (by simp [hx]))

/-- Members of a list whose keys are pairwise distinct agree when their
keys agree. -/
theorem nodupKeyEq {α β : Type} (f : α → β) :
    ∀ {l : List α}, (l.map f).Nodup → ∀ {x y : α}, x ∈ l → y ∈ l →
      f x = f y → x = y := by
  intro l
  induction l with
  | nil => intro _ x y hx; simp at hx
  | cons a t ih =>
    intro hnd x y hx hy hf
    have hnd' := hnd
    rw [List.map_cons, List.nodup_cons] at hnd'
    obtain ⟨hnotin, hndt⟩ := hnd'
    rcases List.mem_cons.mp hx with rfl | hx' <;>
      rcases List.mem_cons.mp hy with rfl | hy'
    · rfl
    · exact absurd (hf ▸ List.mem_map_of_mem f hy') hnotin
    · exact absurd (hf ▸ List.mem_map_of_mem f hx') hnotin
    · exact ih hndt hx' hy' hf

/-- On a list sorted ascending, popping stale entries from the front is
the same as filtering them out everywhere. -/
theorem dropWhile_lt_eq_filter (c : ℚ) :
    ∀ {l : List ℚ}, l.Sorted (· ≤ ·) →
      l.dropWhile (fun t => decide (t < c)) =
        l.filter (fun t => decide (c ≤ t)) := by
  intro l
  induction l with
  | nil => intro _; simp
  | cons a t ih =>
    intro hs
    have ha : ∀ b ∈ t, a ≤ b := List.rel_of_sorted_cons hs
    have ht : t.Sorted (· ≤ ·) := hs.of_cons
    by_cases hac : a < c
    · rw [List.dropWhile_cons_of_pos (by simpa using hac),
        List.filter_cons_of_neg (by simpa using not_le.mpr hac)]
      exact ih ht
    · have hca : c ≤ a := le_of_not_lt hac
      rw [List.dropWhile_cons_of_neg (by simpa using hac),
        List.filter_cons_of_pos (by simpa using hca)]
      congr 1
      symm
      apply List.filter_eq_self.mpr
      intro b hb
      simpa using le_trans hca (ha b hb)

/-- Rounding a nonnegative rational to six decimals stays nonnegative. -/
theorem round6_nonneg {x : ℚ} (h : 0 ≤ x) : 0 ≤ round6 x := by
  unfold round6
  apply div_nonneg _ (by norm_num)
  have h1 : (0 : ℚ) ≤ x * 1000000 + 1 / 2 := by positivity
  have h2 : 0 ≤ ⌊x * 1000000 + 1 / 2⌋ := Int.floor_nonneg.mpr h1
  rw [round_eq]
  exact_mod_cast h2

/-- Taking then filtering a sorted list with a predicate closed upward
along the order keeps exactly min k (total passing) elements. -/
theorem length_filter_take {α : Type} (r : α → α → Prop) (p : α → Bool)
    (hmono : ∀ a b, r a b → p b = true → p a = true) :
    ∀ (l : List α) (k : Nat), l.Pairwise r →
      ((l.take k).filter p).length = min k (l.countP p) := by
  intro l
  induction l with
  | nil => intro k _; simp
  | cons a t ih =>
    intro k hpw
    have ha : ∀ b ∈ t, r a b := fun b hb => List.rel_of_pairwise_cons hpw hb
    have ht : t.Pairwise r := hpw.of_cons
    match k with
    | 0 => simp
    | k + 1 =>
      rw [List.take_succ_cons]
      by_cases hpa : p a = true
      · rw [List.filter_cons_of_pos hpa, List.length_cons, ih k ht,
          List.countP_cons_of_pos _ _ hpa]
        omega
      · have hpa' : p a = false := by simpa using hpa
        have htfail : ∀ b ∈ t, p b = false := by
          intro b hb
          by_contra hc
          exact hpa (hmono a b (ha b hb) (by simpa using hc))
        have hcount : t.countP p = 0 := by
          apply List.countP_eq_zero.mpr
          intro b hb
          simp [htfail b hb]
        have hfilter : (t.take k).filter p = [] := by
          apply List.filter_eq_nil_iff.mpr
          intro b hb
          simp [htfail b (List.take_subset k t hb)]
        rw [List.filter_cons_of_neg (by simp [hpa']), hfilter,
          List.countP_cons_of_neg _ _ (by simp [hpa']), hcount]
        simp


/-! ## C7: memory rate-limiter backend -/

/-- C7 counterexample: the claim asserts retry_after = ceil(oldest -
(now - W)) + 1, but the code truncates (Python int()) before adding 1.
With window 60, limit 1, a recorded timestamp 1/2 and now = 60, the
code reports retry_after 1 while the claimed formula gives 2. -/
theorem rate_retry_after_cex :
    (isAllowed ⟨1, 60⟩ [1 / 2] 60).1 = (false, 1) ∧
    (1 : ℤ) ≠ Int.ceil ((1 / 2 : ℚ) - (60 - 60)) + 1 := by
  constructor
  · norm_num [isAllowed, List.dropWhile]
  · norm_num

/-- C7 amended: on each call the memory backend keeps exactly the
timestamps not older than now - W (pruning the rest), admits iff the
number remaining is strictly below N (appending now when admitted), and
on rejection reports retry_after = floor(oldest remaining - (now - W))
+ 1 — truncation rather than the ceiling the original claim stated —
where the oldest remaining timestamp is the least of the kept ones. -/
theorem rate_limiter_amended (rl : RateLimiter) (ts : List ℚ) (now : ℚ)
    (hsorted : ts.Sorted (· ≤ ·)) (hpos : 0 < rl.maxRequests) :
    ((isAllowed rl ts now).1.1 = true ↔
      (ts.filter (fun t => decide (now - rl.windowSeconds ≤ t))).length <
        rl.maxRequests) ∧
    ((isAllowed rl ts now).1.1 = true →
      (isAllowed rl ts now).2 =
        ts.filter (fun t => decide (now - rl.windowSeconds ≤ t)) ++ [now]) ∧
    ((isAllowed rl ts now).1.1 = false →
      (isAllowed rl ts now).2 =
        ts.filter (fun t => decide (now - rl.windowSeconds ≤ t)) ∧
      ∃ m ∈ ts.filter (fun t => decide (now - rl.windowSeconds ≤ t)),
        (∀ x ∈ ts.filter (fun t => decide (now - rl.windowSeconds ≤ t)), m ≤ x) ∧
        (isAllowed rl ts now).1.2 = Int.floor (m - (now - rl.windowSeconds)) + 1) := by
  have hdw := dropWhile_lt_eq_filter (now - rl.windowSeconds) hsorted
  by_cases hfull : rl.maxRequests ≤
      (ts.filter (fun t => decide (now - rl.windowSeconds ≤ t))).length
  · have hcode :
        isAllowed rl ts now =
          ((false, max 1 (Int.floor
              ((ts.filter (fun t => decide (now - rl.windowSeconds ≤ t))).headD
                (now - rl.windowSeconds) - (now - rl.windowSeconds)) + 1)),
            ts.filter (fun t => decide (now - rl.windowSeconds ≤ t))) := by
      simp only [isAllowed]
      rw [hdw, if_pos hfull]
    rw [hcode]
    refine ⟨?_, by simp, fun _ => ⟨rfl, ?_⟩⟩
    · simp only [Bool.false_eq_true, false_iff, not_lt]
      exact hfull
    set kept := ts.filter (fun t => decide (now - rl.windowSeconds ≤ t)) with hk
    have hne : kept ≠ [] := by
      intro hnil
      rw [hnil] at hfull
      simp at hfull
      omega
    obtain ⟨m, rest, hcons⟩ := List.exists_cons_of_ne_nil hne
    have hmem : m ∈ kept := by rw [hcons]; simp
    have hws : now - rl.windowSeconds ≤ m := by
      have := List.of_mem_filter hmem
      simpa using this
    have hkept_sorted : kept.Sorted (· ≤ ·) := hsorted.filter _
    refine ⟨m, hmem, ?_, ?_⟩
    · intro x hx
      rw [hcons] at hx
      rcases List.mem_cons.mp hx with rfl | hx'
      · exact le_refl x
      · exact List.rel_of_sorted_cons (hcons ▸ hkept_sorted) x hx'
    · have hheadD : kept.headD (now - rl.windowSeconds) = m := by
        rw [hcons]; rfl
      rw [hheadD]
      have hfl : (0 : ℤ) ≤ Int.floor (m - (now - rl.windowSeconds)) :=
        Int.floor_nonneg.mpr (by linarith)
      show (1 : ℤ) ⊔ (⌊m - (now - rl.windowSeconds)⌋ + 1) =
        ⌊m - (now - rl.windowSeconds)⌋ + 1
      omega
  · have hcode :
        isAllowed rl ts now =
          ((true, 0),
            ts.filter (fun t => decide (now - rl.windowSeconds ≤ t)) ++ [now]) := by
      simp only [isAllowed]
      rw [hdw, if_neg hfull]
    rw [hcode]
    refine ⟨by simpa using lt_of_not_le hfull, fun _ => rfl, by simp⟩

/-- C7 amended witness: a concrete rejected call (window 60, limit 1,
one fresh timestamp) with the amended retry_after formula checked. -/
theorem rate_limiter_amended_witness :
    ([(1 / 2 : ℚ)].Sorted (· ≤ ·) ∧ 0 < (1 : Nat)) ∧
    ((isAllowed ⟨1, 60⟩ [1 / 2] 60).1.1 = false →
      (isAllowed ⟨1, 60⟩ [1 / 2] 60).2 =
        [(1 / 2 : ℚ)].filter (fun t => decide ((60 : ℚ) - 60 ≤ t)) ∧
      ∃ m ∈ [(1 / 2 : ℚ)].filter (fun t => decide ((60 : ℚ) - 60 ≤ t)),
        (∀ x ∈ [(1 / 2 : ℚ)].filter (fun t => decide ((60 : ℚ) - 60 ≤ t)), m ≤ x) ∧
        (isAllowed ⟨1, 60⟩ [1 / 2] 60).1.2 =
          Int.floor (m - ((60 : ℚ) - 60)) + 1) :=
  ⟨⟨by simp, by decide⟩,
   (rate_limiter_amended ⟨1, 60⟩ [1 / 2] 60 (by simp) (by decide)).2.2⟩

/-! ## C10: non-Bearer requests bypass the rate limiter -/

/-- C10: any sequence of requests whose Authorization headers do not
start with "Bearer " all pass the rate-limit middleware unchanged — the
limiter state is never touched and no 429 decision is ever produced. -/
theorem non_bearer_bypass (rl : RateLimiter) (st : LimiterState)
    (reqs : List (String × ℚ))
    (h : ∀ q ∈ reqs, "Bearer ".data.isPrefixOf q.1.data = false) :
    dispatchMany rl st reqs = (reqs.map (fun _ => (none : Option ℤ)), st) := by
  induction reqs generalizing st with
  | nil => simp [dispatchMany]
  | cons q rest ih =>
    obtain ⟨hdr, now⟩ := q
    have hq : "Bearer ".data.isPrefixOf hdr.data = false := h (hdr, now) (by simp)
    have hstep : dispatchRateLimit rl st hdr now = (none, st) := by
      unfold dispatchRateLimit
      simp [hq]
    have hrest := ih st (fun q hq' => h q (by simp [hq']))
    simp [dispatchMany, hstep, hrest]

/-- C10 witness: two concrete non-Bearer requests (a basic-auth header
and an empty header) pass through and leave the limiter state intact. -/
theorem non_bearer_bypass_witness :
    (∀ q ∈ [("Basic dXNlcg==", (0 : ℚ)), ("", 5)],
      "Bearer ".data.isPrefixOf q.1.data = false) ∧
    dispatchMany ⟨100, 60⟩ ⟨[]⟩ [("Basic dXNlcg==", (0 : ℚ)), ("", 5)] =
      ([none, none], ⟨[]⟩) :=
  ⟨by decide, non_bearer_bypass ⟨100, 60⟩ ⟨[]⟩ _ (by decide)⟩

/-! ## C8: key-management authorization -/

/-- C8 counterexample: the key endpoints gate on is_root, not on the
role, and reject through a plain HTTPException whose envelope code is
`forbidden`.  A credential whose role column is `admin` but whose
is_root flag is false — exactly the role the claim says is accepted —
is rejected, and with code `forbidden`, not `insufficient_role`. -/
theorem keys_admin_role_cex :
    (validateRow ⟨"k1", "org1", "h1", none, false, some "admin", none⟩ =
      .ok ⟨"org1", none, false, "k1", "admin"⟩) ∧
    requireRoot ⟨"org1", none, false, "k1", "admin"⟩ =
      .error (403, "forbidden") ∧
    "forbidden" ≠ "insufficient_role" := by
  refine ⟨rfl, rfl, by decide⟩

/-- C8 amended: the key-management guard accepts exactly the callers
whose credential row has is_root = true; every other caller is rejected
with HTTP 403 and envelope error code `forbidden` (detail "Root key
required").  For API-key rows without an explicit role column this
coincides with role = admin, since the fallback role mapping makes
admin equivalent to is_root. -/
theorem keys_root_gate_amended (row : KeyRow) (ctx : AuthContext)
    (h : validateRow row = .ok ctx) :
    ((requireRoot ctx = .ok ()) ↔ row.isRoot = true) ∧
    (row.isRoot = false → requireRoot ctx = .error (403, "forbidden")) ∧
    (row.role = none → (ctx.role = "admin" ↔ row.isRoot = true)) := by
  unfold validateRow at h
  by_cases hrev : row.revokedAt.isSome
  · simp [hrev] at h
  · simp only [hrev, if_false, Bool.false_eq_true] at h
    have hctx : ctx = ⟨row.orgId, row.project, row.isRoot, row.id,
        mapApiKeyRole row.isRoot row.role⟩ := by
      cases h
      rfl
    subst hctx
    refine ⟨?_, ?_, ?_⟩
    · unfold requireRoot
      cases hroot : row.isRoot <;> simp [hroot]
    · intro hroot
      unfold requireRoot
      simp [hroot, httpErrorCode]
    · intro hnone
      simp only [mapApiKeyRole, hnone]
      cases hroot : row.isRoot <;> simp

/-- C8 amended witness: a revocable root row passes the gate; its
validated context has role admin under the fallback mapping. -/
theorem keys_root_gate_amended_witness :
    (validateRow ⟨"k1", "org1", "h1", none, true, none, none⟩ =
      .ok ⟨"org1", none, true, "k1", "admin"⟩) ∧
    ((requireRoot ⟨"org1", none, true, "k1", "admin"⟩ = .ok ()) ↔
      (⟨"k1", "org1", "h1", none, true, none, none⟩ : KeyRow).isRoot = true) :=
  ⟨rfl, (keys_root_gate_amended ⟨"k1", "org1", "h1", none, true, none, none⟩
    ⟨"org1", none, true, "k1", "admin"⟩ rfl).1⟩

/-! ## C9: vote counters under PATCH -/

/-- A sample lesson row with five upvotes. -/
def voteRow : LessonRow :=
  { id := "L1", orgId := "org1", problem := "p", resolution := "r",
    context := none, tags := [], confidence := 1, source := none,
    project := none, embedding := none, createdAt := 0, updatedAt := 0,
    expiresAt := none, upvotes := 5, downvotes := 0, meta := [] }

/-- The writer credential used in the vote scenarios. -/
def writerAuth : AuthContext := ⟨"org1", none, false, "k1", "writer"⟩

/-- C9 counterexample: the update model admits a plain integer for the
vote fields (only the string form is validated to "+1"/"-1"), and the
handler then emits a direct column assignment.  A single PATCH carrying
upvotes = 0 drops the counter from 5 to 0 — a decrease of more than 1,
to an arbitrary caller-chosen value. -/
theorem vote_set_cex :
    updateLesson [voteRow] writerAuth "L1"
        ⟨none, none, some (.intVal 0), none, none⟩ 7 =
      .ok ({ voteRow with upvotes := 0, updatedAt := 7 },
           [{ voteRow with upvotes := 0, updatedAt := 7 }]) ∧
    ({ voteRow with upvotes := 0, updatedAt := 7 } : LessonRow).upvotes <
      voteRow.upvotes - 1 := by
  constructor
  · rfl
  · show (0 : ℤ) < 5 - 1
    norm_num

/-- C9 amended: through PATCH, a vote counter changes exactly as the
body dictates — untouched when the field is absent, changed by exactly
±1 for the validated string forms "+1"/"-1", and set directly to the
given value for the (unvalidated) integer form.  The original claim is
thus false only for integer-valued bodies: string deltas are indeed
limited to ±1. -/
theorem vote_update_amended (db : List LessonRow) (auth : AuthContext)
    (lessonId : String) (body : LessonUpdateRequest) (now : ℚ)
    (r row' : LessonRow) (db' : List LessonRow)
    (hfind : db.find? (fun x => x.id == lessonId && scopeMatch auth x) = some r)
    (hok : updateLesson db auth lessonId body now = .ok (row', db')) :
    (body.upvotes = none → row'.upvotes = r.upvotes) ∧
    (body.upvotes = some .plus1 → row'.upvotes = r.upvotes + 1) ∧
    (body.upvotes = some .minus1 → row'.upvotes = r.upvotes - 1) ∧
    (∀ k, body.upvotes = some (.intVal k) → row'.upvotes = k) ∧
    (body.downvotes = none → row'.downvotes = r.downvotes) ∧
    (body.downvotes = some .plus1 → row'.downvotes = r.downvotes + 1) ∧
    (body.downvotes = some .minus1 → row'.downvotes = r.downvotes - 1) ∧
    (∀ k, body.downvotes = some (.intVal k) → row'.downvotes = k) := by
  unfold updateLesson at hok
  by_cases hflds : hasUpdateFields body
  · rw [if_neg (by simp [hflds]), hfind] at hok
    have hrow : row' = applyUpdate r body now := by
      cases hok
      rfl
    subst hrow
    refine ⟨?_, ?_, ?_, ?_, ?_, ?_, ?_, ?_⟩ <;>
      first
        | (intro hv; simp [applyUpdate, applyVote, hv])
        | (intro k hv; simp [applyUpdate, applyVote, hv])
  · rw [if_pos (by simp [hflds])] at hok
    cases hok

/-- C9 amended witness: a concrete "+1" PATCH bumps the counter by
exactly one. -/
theorem vote_update_amended_witness :
    ([voteRow].find? (fun x => x.id == "L1" && scopeMatch writerAuth x) =
      some voteRow) ∧
    (updateLesson [voteRow] writerAuth "L1"
        ⟨none, none, some .plus1, none, none⟩ 7 =
      .ok ({ voteRow with upvotes := 6, updatedAt := 7 },
           [{ voteRow with upvotes := 6, updatedAt := 7 }])) ∧
    ({ voteRow with upvotes := 6, updatedAt := 7 } : LessonRow).upvotes =
      voteRow.upvotes + 1 :=
  ⟨rfl, rfl,
   (vote_update_amended [voteRow] writerAuth "L1"
      ⟨none, none, some .plus1, none, none⟩ 7 voteRow
      { voteRow with upvotes := 6, updatedAt := 7 }
      [{ voteRow with upvotes := 6, updatedAt := 7 }] rfl rfl).2.1 rfl⟩

/-! ## C5: project scoping -/

/-- C5: a project-scoped credential (a) stores its own project on
create, regardless of the body; (b) only ever reads rows of its org
and project; and (c) receives a 404 not_found — never a 403 — when
requesting an existing lesson of the same tenant that lives in another
project. -/
theorem project_scoping :
    (∀ (auth : AuthContext) (body : LessonCreateRequest) (now : ℚ)
        (lid p : String), auth.project = some p →
      (createLessonRow auth body now lid).project = some p) ∧
    (∀ (db : List LessonRow) (auth : AuthContext) (lid : String)
        (row : LessonRow), getLesson db auth lid = .ok row →
      row.orgId = auth.orgId ∧ row.id = lid ∧
        ∀ p, auth.project = some p → row.project = some p) ∧
    (∀ (db : List LessonRow) (auth : AuthContext) (lid p : String)
        (row : LessonRow), auth.project = some p → row ∈ db → row.id = lid →
      row.orgId = auth.orgId → row.project ≠ some p →
      (db.map (fun r => r.id)).Nodup →
      getLesson db auth lid = .error (404, "not_found")) := by
  refine ⟨?_, ?_, ?_⟩
  · intro auth body now lid p hp
    simp [createLessonRow, hp]
  · intro db auth lid row hok
    unfold getLesson at hok
    cases hfind : db.find? (fun r => r.id == lid && scopeMatch auth r) with
    | none => rw [hfind] at hok; cases hok
    | some row0 =>
      rw [hfind] at hok
      have hrow : row0 = row := by cases hok; rfl
      subst hrow
      have hpred := List.find?_some hfind
      simp only [Bool.and_eq_true, beq_iff_eq] at hpred
      obtain ⟨hid, hscope⟩ := hpred
      unfold scopeMatch at hscope
      refine ⟨?_, hid, ?_⟩
      · cases hproj : auth.project with
        | none => rw [hproj] at hscope; simpa using hscope
        | some p =>
          rw [hproj] at hscope
          simp only [Bool.and_eq_true, beq_iff_eq] at hscope
          exact hscope.1
      · intro p hproj
        rw [hproj] at hscope
        simp only [Bool.and_eq_true, beq_iff_eq] at hscope
        exact hscope.2
  · intro db auth lid p row hp hmem hid horg hnotproj hnodup
    unfold getLesson
    have hnone : db.find? (fun r => r.id == lid && scopeMatch auth r) = none := by
      apply List.find?_eq_none.mpr
      intro x hx
      by_cases hxid : x.id = lid
      · have hxrow : x = row := nodupKeyEq (fun r => r.id) hnodup hx hmem
          (hxid.trans hid.symm)
        subst hxrow
        unfold scopeMatch
        rw [hp]
        simp [hnotproj]
      · simp [hxid]
    rw [hnone]
    rfl

/-- A frontend-project lesson row used in the scoping witness. -/
def frontRow : LessonRow :=
  { id := "L1", orgId := "org1", problem := "p", resolution := "r",
    context := none, tags := [], confidence := 1, source := none,
    project := some "frontend", embedding := none, createdAt := 0,
    updatedAt := 0, expiresAt := none, upvotes := 0, downvotes := 0,
    meta := [] }

/-- The backend-scoped credential used in the scoping witness. -/
def backendAuth : AuthContext := ⟨"org1", some "backend", false, "k1", "writer"⟩

/-- C5 witness: a backend-scoped key creating with body project
"frontend" stores "backend"; fetching a frontend row of the same org
yields 404 not_found. -/
theorem project_scoping_witness :
    (createLessonRow backendAuth
        ⟨"p", "r", none, [], 1, none, some "frontend", none, none, []⟩
        3 "L9").project = some "backend" ∧
    getLesson [frontRow] backendAuth "L1" = .error (404, "not_found") :=
  ⟨project_scoping.1 backendAuth
      ⟨"p", "r", none, [], 1, none, some "frontend", none, none, []⟩
      3 "L9" "backend" rfl,
   project_scoping.2.2 [frontRow] backendAuth "L1" "backend" frontRow
      rfl (by simp) rfl rfl (by simp [frontRow]) (by simp)⟩

/-! ## C3: revocation invalidates the key cache -/

/-- On a cache miss the resolver falls through to the database branch. -/
theorem resolveApiKey_cacheMiss (now : ℚ) (st : AuthState) (h : String)
    (hc : st.cache.find? (fun e => e.1 == h) = none) :
    resolveApiKey now st h = resolveMiss now st h := by
  unfold resolveApiKey
  rw [hc]

/-- When the hash lookup hits a row, the database branch validates that
row (the constant-time hash comparison necessarily succeeds). -/
theorem resolveMiss_hashHit (now : ℚ) (st : AuthState) (h : String)
    (row : KeyRow)
    (hf : st.db.find? (fun r => r.keyHash == h) = some row) :
    resolveMiss now st h =
      (validateRow row,
       { st with cache := cacheInsert (cacheEvictIfFull st.cache) h row now }) := by
  have hh : row.keyHash = h := by
    have := List.find?_some hf
    simpa using this
  unfold resolveMiss
  rw [hf]
  show (if row.keyHash ≠ h then
      ((Except.error "invalid_api_key" : Except String AuthContext), st)
    else (validateRow row,
      { st with cache := cacheInsert (cacheEvictIfFull st.cache) h row now })) = _
  rw [if_neg (by simp [hh])]

/-- C3: after a successful revoke of credential K, K's cache entry is
gone (deleted synchronously by the handler), and every later resolution
of K's hash reaches the database row, finds revoked_at set, and fails
with key_revoked — never with invalid_api_key. -/
theorem revoke_invalidates_cache (now now' : ℚ) (auth : AuthContext)
    (st st' : AuthState) (kid : String) (K : KeyRow)
    (hK : st.db.find? (fun r => r.id == kid && r.orgId == auth.orgId) = some K)
    (hnodup : (st.db.map (fun r => r.keyHash)).Nodup)
    (hok : revokeKey now auth st kid = .ok st') :
    st'.cache.find? (fun e => e.1 == K.keyHash) = none ∧
    (resolveApiKey now' st' K.keyHash).1 = .error "key_revoked" ∧
    (resolveApiKey now' st' K.keyHash).1 ≠ .error "invalid_api_key" := by
  unfold revokeKey requireRoot at hok
  cases hroot : auth.isRoot with
  | false => rw [hroot] at hok; simp at hok
  | true =>
    rw [hroot] at hok
    simp only [if_true] at hok
    rw [hK] at hok
    replace hok : (if K.revokedAt.isSome = true then
        (Except.error (400, httpErrorCode 400) : Except HttpErr AuthState)
      else if (K.isRoot && decide ((st.db.countP (fun r =>
          r.orgId == auth.orgId && r.isRoot && r.revokedAt.isNone)) ≤ 1)) = true
        then Except.error (400, httpErrorCode 400)
      else Except.ok ⟨st.db.map (fun r =>
          if r.id == kid then { r with revokedAt := some now } else r),
        st.cache.filter (fun e => e.1 != K.keyHash)⟩) = Except.ok st' := hok
    by_cases hrev : K.revokedAt.isSome
    · rw [if_pos hrev] at hok; cases hok
    · rw [if_neg hrev] at hok
      by_cases hguard : (K.isRoot && decide ((st.db.countP (fun r =>
          r.orgId == auth.orgId && r.isRoot && r.revokedAt.isNone)) ≤ 1)) = true
      · rw [if_pos hguard] at hok; cases hok
      · rw [if_neg hguard] at hok
        have hst' : st' =
            ⟨st.db.map (fun r =>
               if r.id == kid then { r with revokedAt := some now } else r),
             st.cache.filter (fun e => e.1 != K.keyHash)⟩ := by
          cases hok; rfl
        subst hst'
        have hcache :
            (st.cache.filter (fun e => e.1 != K.keyHash)).find?
              (fun e => e.1 == K.keyHash) = none := by
          apply List.find?_eq_none.mpr
          intro e he
          have hne := List.of_mem_filter he
          simpa using hne
        obtain ⟨l1, l2, hsplit, hpredK, hfail⟩ := findSplit hK
        have hdbfind :
            (st.db.map (fun r =>
               if r.id == kid then { r with revokedAt := some now } else r)).find?
              (fun r => r.keyHash == K.keyHash) =
            some { K with revokedAt := some now } := by
          rw [hsplit, List.map_append, List.map_cons]
          have hKid : (K.id == kid) = true := by
            have := hpredK
            simp only [Bool.and_eq_true] at this
            exact this.1
          have hnotin : K.keyHash ∉ l1.map (fun r => r.keyHash) := by
            rw [hsplit, List.map_append, List.map_cons] at hnodup
            have hdisj := (List.nodup_append.mp hnodup).2.2
            intro hmem
            exact hdisj hmem (by simp)
          rw [find?_append_of_none]
          · rw [show (if (K.id == kid) = true then
                { K with revokedAt := some now } else K) =
                { K with revokedAt := some now } from if_pos hKid]
            exact List.find?_cons_of_pos _ (by simp)
          · intro x hx
            obtain ⟨y, hy, hyx⟩ := List.mem_map.mp hx
            have hhash : x.keyHash = y.keyHash := by
              subst hyx
              by_cases hyid : (y.id == kid) = true
              · rw [if_pos hyid]
              · rw [if_neg hyid]
            have hyne : y.keyHash ≠ K.keyHash := by
              intro hcontra
              exact hnotin (hcontra ▸ List.mem_map_of_mem (fun r => r.keyHash) hy)
            simp [hhash, hyne]
        have hres : (resolveApiKey now'
            ⟨st.db.map (fun r =>
               if r.id == kid then { r with revokedAt := some now } else r),
             st.cache.filter (fun e => e.1 != K.keyHash)⟩ K.keyHash).1 =
            .error "key_revoked" := by
          rw [resolveApiKey_cacheMiss _ _ _ hcache,
            resolveMiss_hashHit _ _ _ _ hdbfind]
          unfold validateRow
          simp
        exact ⟨hcache, hres, by rw [hres]; simp⟩

/-- Two root keys of the witness org. -/
def rootKey1 : KeyRow := ⟨"k1", "org1", "h1", none, true, none, none⟩

/-- The second root key, the one revoked in the witness. -/
def rootKey2 : KeyRow := ⟨"k2", "org1", "h2", none, true, none, none⟩

/-- The admin context acting in the revocation witness. -/
def adminAuth : AuthContext := ⟨"org1", none, true, "k1", "admin"⟩

/-- C3 witness: with two active root keys and a cached entry for the
second, revoking the second succeeds, empties its cache slot, and later
resolution of its hash reports key_revoked. -/
theorem revoke_invalidates_cache_witness :
    ([rootKey1, rootKey2].find?
        (fun r => r.id == "k2" && r.orgId == "org1") = some rootKey2) ∧
    (revokeKey 100 adminAuth ⟨[rootKey1, rootKey2], [("h2", rootKey2, 50)]⟩
        "k2" =
      .ok ⟨[rootKey1, { rootKey2 with revokedAt := some 100 }], []⟩) ∧
    (resolveApiKey 200
        ⟨[rootKey1, { rootKey2 with revokedAt := some 100 }], []⟩ "h2").1 =
      .error "key_revoked" :=
  ⟨rfl, rfl,
   (revoke_invalidates_cache 100 200 adminAuth
      ⟨[rootKey1, rootKey2], [("h2", rootKey2, 50)]⟩
      ⟨[rootKey1, { rootKey2 with revokedAt := some 100 }], []⟩
      "k2" rootKey2 rfl (by simp [rootKey1, rootKey2]) rfl).2.1⟩

/-! ## C4: the last active root credential cannot be revoked -/

/-- Anatomy of a successful revoke: the caller is root, the target row
was found active, it was not the last active root of the org, and the
new state is the row update plus the cache eviction. -/
theorem revoke_ok_shape (now : ℚ) (auth : AuthContext) (st : AuthState)
    (kid : String) (st' : AuthState)
    (hok : revokeKey now auth st kid = .ok st') :
    auth.isRoot = true ∧
    ∃ K, st.db.find? (fun r => r.id == kid && r.orgId == auth.orgId) = some K ∧
      K.revokedAt = none ∧
      (K.isRoot = true → 2 ≤ st.db.countP (fun r =>
        r.orgId == auth.orgId && r.isRoot && r.revokedAt.isNone)) ∧
      st' = ⟨st.db.map (fun r =>
          if r.id == kid then { r with revokedAt := some now } else r),
        st.cache.filter (fun e => e.1 != K.keyHash)⟩ := by
  unfold revokeKey requireRoot at hok
  cases hroot : auth.isRoot with
  | false => rw [hroot] at hok; simp at hok
  | true =>
    rw [hroot] at hok
    simp only [if_true] at hok
    refine ⟨rfl, ?_⟩
    cases hfind : st.db.find? (fun r => r.id == kid && r.orgId == auth.orgId) with
    | none =>
      rw [hfind] at hok
      exact absurd hok (by simp)
    | some K =>
      rw [hfind] at hok
      replace hok : (if K.revokedAt.isSome = true then
          (Except.error (400, httpErrorCode 400) : Except HttpErr AuthState)
        else if (K.isRoot && decide ((st.db.countP (fun r =>
            r.orgId == auth.orgId && r.isRoot && r.revokedAt.isNone)) ≤ 1)) = true
          then Except.error (400, httpErrorCode 400)
        else Except.ok ⟨st.db.map (fun r =>
            if r.id == kid then { r with revokedAt := some now } else r),
          st.cache.filter (fun e => e.1 != K.keyHash)⟩) = Except.ok st' := hok
      by_cases hrev : K.revokedAt.isSome
      · rw [if_pos hrev] at hok; cases hok
      · rw [if_neg hrev] at hok
        by_cases hguard : (K.isRoot && decide ((st.db.countP (fun r =>
            r.orgId == auth.orgId && r.isRoot && r.revokedAt.isNone)) ≤ 1)) = true
        · rw [if_pos hguard] at hok; cases hok
        · rw [if_neg hguard] at hok
          refine ⟨K, rfl, Option.not_isSome_iff_eq_none.mp hrev, ?_, ?_⟩
          · intro hKroot
            rw [hKroot] at hguard
            simp only [Bool.true_and, decide_eq_true_eq] at hguard
            omega
          · cases hok; rfl

/-- A revoke (successful or not) never changes the id column. -/
theorem revoke_preserves_ids (now : ℚ) (auth : AuthContext) (st : AuthState)
    (kid : String) (st' : AuthState)
    (hok : revokeKey now auth st kid = .ok st') :
    st'.db.map (fun r => r.id) = st.db.map (fun r => r.id) := by
  obtain ⟨-, K, -, -, -, hst'⟩ := revoke_ok_shape now auth st kid st' hok
  subst hst'
  rw [List.map_map]
  apply List.map_congr_left
  intro r _
  by_cases hid : r.id = kid
  · simp [hid]
  · simp [hid]

/-- One successful revoke keeps at least one active root in every org
that had one (given globally unique key ids). -/
theorem revoke_preserves_activeRoot (now : ℚ) (auth : AuthContext)
    (st : AuthState) (kid : String) (st' : AuthState) (org : String)
    (hids : (st.db.map (fun r => r.id)).Nodup)
    (hok : revokeKey now auth st kid = .ok st')
    (hroot : hasActiveRoot st.db org) : hasActiveRoot st'.db org := by
  obtain ⟨-, K, hfind, hrevnone, hcount, hst'⟩ :=
    revoke_ok_shape now auth st kid st' hok
  subst hst'
  obtain ⟨l1, l2, hsplit, hpredK, hfail⟩ := findSplit hfind
  have hKid : K.id = kid := by
    have := hpredK
    simp only [Bool.and_eq_true, beq_iff_eq] at this
    exact this.1
  have hKorg : K.orgId = auth.orgId := by
    have := hpredK
    simp only [Bool.and_eq_true, beq_iff_eq] at this
    exact this.2
  have hnotin1 : kid ∉ l1.map (fun r => r.id) := by
    rw [hsplit, List.map_append, List.map_cons] at hids
    have hdisj := (List.nodup_append.mp hids).2.2
    intro hmem
    exact hdisj hmem (by simp [hKid])
  have hnotin2 : kid ∉ l2.map (fun r => r.id) := by
    rw [hsplit, List.map_append, List.map_cons] at hids
    have := (List.nodup_append.mp hids).2.1
    rw [List.nodup_cons] at this
    exact hKid ▸ this.1
  have hmapeq : st.db.map (fun r =>
      if r.id == kid then { r with revokedAt := some now } else r) =
      l1 ++ { K with revokedAt := some now } :: l2 := by
    rw [hsplit, List.map_append, List.map_cons]
    congr 1
    · trans (l1.map id)
      · apply List.map_congr_left
        intro x hx
        have hxid : x.id ≠ kid := by
          intro hcontra
          exact hnotin1 (hcontra ▸ List.mem_map_of_mem (fun r => r.id) hx)
        simp [hxid]
      · exact List.map_id l1
    · congr 1
      · rw [if_pos (by simp [hKid])]
      · trans (l2.map id)
        · apply List.map_congr_left
          intro x hx
          have hxid : x.id ≠ kid := by
            intro hcontra
            exact hnotin2 (hcontra ▸ List.mem_map_of_mem (fun r => r.id) hx)
          simp [hxid]
        · exact List.map_id l2
  unfold hasActiveRoot at hroot ⊢
  rw [hmapeq]
  rw [hsplit] at hroot
  rw [List.countP_append, List.countP_cons] at hroot ⊢
  have hpfalse : ((({ K with revokedAt := some now } : KeyRow).orgId == org &&
      ({ K with revokedAt := some now } : KeyRow).isRoot &&
      ({ K with revokedAt := some now } : KeyRow).revokedAt.isNone)) = false := by
    simp
  rw [hpfalse]
  simp only [Bool.false_eq_true, if_false, Nat.add_zero]
  by_cases hpK : (K.orgId == org && K.isRoot && K.revokedAt.isNone) = true
  · have horg : org = auth.orgId := by
      have hp := hpK
      simp only [Bool.and_eq_true, beq_iff_eq] at hp
      exact hp.1.1.symm.trans hKorg
    subst horg
    have hKroot : K.isRoot = true := by
      have hp := hpK
      simp only [Bool.and_eq_true] at hp
      exact hp.1.2
    have h2 := hcount hKroot
    rw [hsplit, List.countP_append, List.countP_cons] at h2
    rw [hpK] at h2
    simp only [if_true] at h2
    omega
  · have hpKf : (K.orgId == org && K.isRoot && K.revokedAt.isNone) = false := by
      rw [Bool.eq_false_iff]
      exact hpK
    rw [hpKf] at hroot
    simp only [Bool.false_eq_true, if_false, Nat.add_zero] at hroot
    omega

/-- C4: starting from a state with globally unique key ids, (a) any
sequence of revoke calls preserves, for every org, the presence of at
least one active root credential; and (b) a revoke aimed at the last
active root credential of the caller's org fails with an error (and so,
the transaction aborting, leaves the target row untouched). -/
theorem last_root_invariant :
    (∀ (st : AuthState) (ops : List (ℚ × AuthContext × String)) (org : String),
      (st.db.map (fun r => r.id)).Nodup → hasActiveRoot st.db org →
      hasActiveRoot (applyRevokes st ops).db org) ∧
    (∀ (now : ℚ) (auth : AuthContext) (st : AuthState) (kid : String)
        (K : KeyRow),
      st.db.find? (fun r => r.id == kid && r.orgId == auth.orgId) = some K →
      K.isRoot = true → K.revokedAt = none →
      st.db.countP (fun r =>
        r.orgId == auth.orgId && r.isRoot && r.revokedAt.isNone) ≤ 1 →
      ∃ e, revokeKey now auth st kid = .error e) := by
  constructor
  · intro st ops
    induction ops generalizing st with
    | nil => intro org _ hroot; exact hroot
    | cons op rest ih =>
      intro org hids hroot
      obtain ⟨now, auth, kid⟩ := op
      unfold applyRevokes
      cases hstep : revokeKey now auth st kid with
      | ok st' =>
        exact ih st' org
          (by rw [revoke_preserves_ids now auth st kid st' hstep]; exact hids)
          (revoke_preserves_activeRoot now auth st kid st' org hids hstep hroot)
      | error e => exact ih st org hids hroot
  · intro now auth st kid K hfind hKroot hKactive hcount
    unfold revokeKey requireRoot
    cases hroot : auth.isRoot with
    | false => exact ⟨(403, httpErrorCode 403), by simp⟩
    | true =>
      simp only [if_true]
      rw [hfind]
      refine ⟨(400, httpErrorCode 400), ?_⟩
      show (if K.revokedAt.isSome = true then
          (Except.error (400, httpErrorCode 400) : Except HttpErr AuthState)
        else if (K.isRoot && decide ((st.db.countP (fun r =>
            r.orgId == auth.orgId && r.isRoot && r.revokedAt.isNone)) ≤ 1)) = true
          then Except.error (400, httpErrorCode 400)
        else Except.ok ⟨st.db.map (fun r =>
            if r.id == kid then { r with revokedAt := some now } else r),
          st.cache.filter (fun e => e.1 != K.keyHash)⟩) =
        Except.error (400, httpErrorCode 400)
      rw [if_neg (by simp [hKactive]), if_pos (by simp [hKroot, hcount])]

/-- C4 witness: a single-root org survives an attempt to revoke its only
root key: the call errors and the invariant holds after the sequence. -/
theorem last_root_invariant_witness :
    (([rootKey1].map (fun r => r.id)).Nodup ∧
      hasActiveRoot [rootKey1] "org1") ∧
    hasActiveRoot
      (applyRevokes ⟨[rootKey1], []⟩ [(100, adminAuth, "k1")]).db "org1" ∧
    (∃ e, revokeKey 100 adminAuth ⟨[rootKey1], []⟩ "k1" = .error e) :=
  ⟨⟨by simp, by unfold hasActiveRoot; decide⟩,
   last_root_invariant.1 ⟨[rootKey1], []⟩ [(100, adminAuth, "k1")] "org1"
     (by simp) (by unfold hasActiveRoot; decide),
   last_root_invariant.2 100 adminAuth ⟨[rootKey1], []⟩ "k1" rootKey1
     rfl rfl rfl (by decide)⟩

/-! ## C6: export / import round trip -/

/-- The import item an exported row with an embedding converts to. -/
def itemOfRow (r : LessonRow) : LessonImportItem :=
  { id := some r.id, problem := r.problem, resolution := r.resolution,
    context := r.context, tags := r.tags, confidence := r.confidence,
    source := r.source, project := r.project,
    embedding := r.embedding.getD [], expiresAt := r.expiresAt,
    upvotes := r.upvotes, downvotes := r.downvotes, meta := r.meta }

/-- When every exported row carries a 384-dimensional embedding, the
payload validates item by item. -/
theorem importItemsOf_all :
    ∀ {l : List LessonRow},
      (∀ r ∈ l, ∃ e, r.embedding = some e ∧ e.length = 384) →
      importItemsOf l = some (l.map itemOfRow) := by
  intro l
  induction l with
  | nil => intro _; rfl
  | cons r t ih =>
    intro h
    obtain ⟨e, he, hlen⟩ := h r (by simp)
    have hitem : exportItemToImportItem r = some (itemOfRow r) := by
      simp [exportItemToImportItem, he, hlen, itemOfRow]
    have htail : importItemsOf t = some (t.map itemOfRow) :=
      ih (fun x hx => h x (by simp [hx]))
    unfold importItemsOf
    rw [hitem, htail]
    rfl

/-- Importing items that all carry ids, pairwise distinct and absent
from the destination, appends exactly one freshly built row per item. -/
theorem importLessons_all_new (auth : AuthContext) (now : ℚ) :
    ∀ (items : List LessonImportItem) (db : List LessonRow)
      (fresh : List String),
      (∀ i ∈ items, i.id.isSome = true) →
      (items.map (fun i => i.id.getD "")).Nodup →
      (∀ i ∈ items, ∀ r ∈ db, r.id ≠ i.id.getD "") →
      importLessons auth now fresh db items =
        db ++ items.map (fun i => importedRow auth now (i.id.getD "") i) := by
  intro items
  induction items with
  | nil => intro db fresh _ _ _; simp [importLessons]
  | cons i rest ih =>
    intro db fresh hsome hnodup hfreshdb
    obtain ⟨x, hx⟩ := Option.isSome_iff_exists.mp (hsome i (by simp))
    have hgetD : ∀ d : String, i.id.getD d = x := by
      intro d; rw [hx]; rfl
    have hnone : db.find? (fun r => r.id == x) = none := by
      apply List.find?_eq_none.mpr
      intro r hr
      have hne := hfreshdb i (by simp) r hr
      rw [hgetD] at hne
      simpa using hne
    have hone : importOne auth now (fresh.headD "") db i =
        db ++ [importedRow auth now x i] := by
      simp only [importOne, hgetD, hnone]
    unfold importLessons
    rw [hone]
    rw [ih (db ++ [importedRow auth now x i]) fresh.tail
      (fun j hj => hsome j (by simp [hj]))
      (by
        rw [List.map_cons, List.nodup_cons] at hnodup
        exact hnodup.2)
      (by
        intro j hj r hr
        rcases List.mem_append.mp hr with hrdb | hrnew
        · exact hfreshdb j (by simp [hj]) r hrdb
        · have hrid : r = importedRow auth now x i := by simpa using hrnew
          subst hrid
          show x ≠ j.id.getD ""
          rw [List.map_cons, List.nodup_cons] at hnodup
          intro hcontra
          apply hnodup.1
          rw [hgetD, hcontra]
          exact List.mem_map_of_mem (fun i => i.id.getD "") hj)]
    rw [List.map_cons, hgetD]
    simp

/-- A source lesson with full metadata used in the round-trip scenarios. -/
def exportedRow : LessonRow :=
  { id := "L6", orgId := "orgA", problem := "p", resolution := "r",
    context := some "ctx", tags := ["t1"], confidence := 1, source := none,
    project := none, embedding := some (List.replicate 384 1),
    createdAt := 100, updatedAt := 150, expiresAt := none,
    upvotes := 2, downvotes := 1, meta := [] }

/-- The unscoped credential of the source org in the round trip. -/
def exportAuth : AuthContext := ⟨"orgA", none, true, "kA", "admin"⟩

/-- The unscoped credential of the destination org in the round trip. -/
def importAuth : AuthContext := ⟨"orgB", none, true, "kB", "admin"⟩

set_option maxRecDepth 40000 in
/-- C6 counterexample: the import INSERT writes now() into created_at
and updated_at and its request model has no timestamp fields at all, so
the round trip of a lesson created at 100 and updated at 150, imported
at time 200, lands with both timestamps equal to 200 — timestamps are
not preserved as the claim asserts. -/
theorem export_import_timestamps_cex :
    (roundTrip [exportedRow] exportAuth importAuth 200 []).map
        (fun db => db.map (fun r => (r.createdAt, r.updatedAt))) =
      some [((200 : ℚ), (200 : ℚ))] ∧
    (exportedRow.createdAt, exportedRow.updatedAt) = ((100 : ℚ), (150 : ℚ)) ∧
    ((200 : ℚ), (200 : ℚ)) ≠ ((100 : ℚ), (150 : ℚ)) := by
  refine ⟨rfl, rfl, by norm_num⟩

/-- C6 amended: the round trip into a destination that contains none of
the exported ids (in particular an empty second tenant in a fresh
database) reproduces ids, embeddings and vote counts and keeps the
lesson count — but re-stamps created_at and updated_at with the import
time and re-assigns the rows to the importer's org, rather than
preserving the original timestamps. -/
theorem export_import_amended (srcDb destDb : List LessonRow)
    (authExp authImp : AuthContext) (now : ℚ)
    (hemb : ∀ r ∈ exportLessons srcDb authExp,
      ∃ e, r.embedding = some e ∧ e.length = 384)
    (hnodup : ((exportLessons srcDb authExp).map (fun r => r.id)).Nodup)
    (hfresh : ∀ r ∈ exportLessons srcDb authExp, ∀ d ∈ destDb, d.id ≠ r.id) :
    roundTrip srcDb authExp authImp now destDb =
      some (destDb ++ (exportLessons srcDb authExp).map
        (fun r => importedRow authImp now r.id (itemOfRow r))) ∧
    ((exportLessons srcDb authExp).map
        (fun r => importedRow authImp now r.id (itemOfRow r))).length =
      (exportLessons srcDb authExp).length ∧
    (∀ r ∈ exportLessons srcDb authExp,
      (importedRow authImp now r.id (itemOfRow r)).id = r.id ∧
      (importedRow authImp now r.id (itemOfRow r)).embedding = r.embedding ∧
      (importedRow authImp now r.id (itemOfRow r)).upvotes = r.upvotes ∧
      (importedRow authImp now r.id (itemOfRow r)).downvotes = r.downvotes ∧
      (importedRow authImp now r.id (itemOfRow r)).orgId = authImp.orgId ∧
      (importedRow authImp now r.id (itemOfRow r)).createdAt = now ∧
      (importedRow authImp now r.id (itemOfRow r)).updatedAt = now) := by
  have hitems := importItemsOf_all hemb
  have hids : ∀ r : LessonRow, (itemOfRow r).id.getD "" = r.id := fun r => rfl
  have himport := importLessons_all_new authImp now
    ((exportLessons srcDb authExp).map itemOfRow) destDb []
    (by intro i hi
        obtain ⟨r, _, rfl⟩ := List.mem_map.mp hi
        rfl)
    (by rw [List.map_map]
        have : ((exportLessons srcDb authExp).map
            (fun r => (itemOfRow r).id.getD "")) =
            (exportLessons srcDb authExp).map (fun r => r.id) := by
          apply List.map_congr_left
          intro r _
          exact hids r
        rw [show ((fun i : LessonImportItem => i.id.getD "") ∘ itemOfRow) =
            fun r : LessonRow => (itemOfRow r).id.getD "" from rfl]
        rw [this]
        exact hnodup)
    (by intro i hi d hd
        obtain ⟨r, hr, rfl⟩ := List.mem_map.mp hi
        rw [hids r]
        exact hfresh r hr d hd)
  refine ⟨?_, by rw [List.length_map], ?_⟩
  · unfold roundTrip
    rw [hitems]
    simp only [Option.map_some']
    rw [himport]
    rw [List.map_map]
    rfl
  · intro r hr
    refine ⟨rfl, ?_, rfl, rfl, rfl, rfl, rfl⟩
    obtain ⟨e, he, -⟩ := hemb r hr
    show some ((itemOfRow r).embedding) = r.embedding
    rw [show (itemOfRow r).embedding = r.embedding.getD [] from rfl, he]
    rfl

/-- C6 amended witness: the concrete one-lesson round trip at import
time 200 preserves id, embedding and votes while re-stamping both
timestamps to 200. -/
theorem export_import_amended_witness :
    (∀ r ∈ exportLessons [exportedRow] exportAuth,
      ∃ e, r.embedding = some e ∧ e.length = 384) ∧
    roundTrip [exportedRow] exportAuth importAuth 200 [] =
      some ([] ++ (exportLessons [exportedRow] exportAuth).map
        (fun r => importedRow importAuth 200 r.id (itemOfRow r))) :=
  have hemb : ∀ r ∈ exportLessons [exportedRow] exportAuth,
      ∃ e, r.embedding = some e ∧ e.length = 384 := by
    intro r hr
    have hr' : r = exportedRow := by
      have : exportLessons [exportedRow] exportAuth = [exportedRow] := rfl
      rw [this] at hr
      simpa using hr
    subst hr'
    exact ⟨List.replicate 384 1, rfl, by rw [List.length_replicate]⟩
  ⟨hemb,
   (export_import_amended [exportedRow] [] exportAuth importAuth 200
      hemb
      (by rw [show exportLessons [exportedRow] exportAuth = [exportedRow]
            from rfl]
          simp)
      (fun r _ d hd => absurd hd (List.not_mem_nil d))).1⟩

/-! ## C1: the search score formula -/

/-- The WHERE clause of the search SQL decides exactly the candidate set
stated by the spec. -/
theorem searchCandidate_iff (auth : AuthContext) (body : LessonSearchRequest)
    (now : ℚ) (r : LessonRow) :
    searchCandidate auth body now r = true ↔ candidateSpecC1 auth body now r := by
  unfold searchCandidate candidateSpecC1
  constructor
  · intro h
    simp only [Bool.and_eq_true] at h
    obtain ⟨⟨⟨⟨horg, hproj⟩, htags⟩, hexp⟩, hemb⟩ := h
    refine ⟨by simpa using horg, ?_, ?_, ?_, ?_⟩
    · intro p hp
      simp only [hp] at hproj
      simpa using hproj
    · cases hexpo : r.expiresAt with
      | none => exact Or.inl rfl
      | some e2 =>
        simp only [hexpo] at hexp
        exact Or.inr ⟨e2, rfl, by simpa using hexp⟩
    · simpa [Option.isSome_iff_ne_none] using hemb
    · intro ts hts t ht
      simp only [hts] at htags
      by_cases hempty : ts.isEmpty
      · rw [List.isEmpty_iff] at hempty
        subst hempty
        cases ht
      · rw [if_neg hempty] at htags
        have := List.all_eq_true.mp htags t ht
        simpa using this
  · rintro ⟨horg, hproj, hexp, hemb, htags⟩
    simp only [Bool.and_eq_true]
    refine ⟨⟨⟨⟨by simpa using horg, ?_⟩, ?_⟩, ?_⟩, ?_⟩
    · cases hp : searchProject auth body with
      | none => rfl
      | some p => simpa using hproj p hp
    · cases hts : body.tags with
      | none => rfl
      | some ts =>
        show (if ts.isEmpty = true then true
          else ts.all fun t => r.tags.contains t) = true
        by_cases hempty : ts.isEmpty
        · rw [if_pos hempty]
        · rw [if_neg hempty]
          apply List.all_eq_true.mpr
          intro t ht
          simpa using htags ts hts t ht
    · cases hexpo : r.expiresAt with
      | none => rfl
      | some e2 =>
        rcases hexp with hnone | ⟨e3, he3, hlt⟩
        · rw [hexpo] at hnone
          cases hnone
        · rw [hexpo] at he3
          show decide (now < e2) = true
          injection he3 with he3'
          subst he3'
          simpa using hlt
    · simpa [Option.isSome_iff_ne_none] using hemb

/-- The score column of the SQL coincides with the formula of the spec:
both apply the same exponential to the same age in days from updated_at
and the same floored vote factor. -/
theorem scoreSQL_eq_scoreSpec (F : SqlFns) (now : ℚ)
    (body : LessonSearchRequest) (r : LessonRow) :
    scoreSQL F now body r = scoreSpec F now body r := by
  unfold scoreSQL scoreSpec ageDays
  rw [show -(1 / 100 : ℚ) * (now - r.updatedAt) / 86400 =
      -(1 / 100) * ((now - r.updatedAt) / 86400) from by ring]
  rw [show (1 : ℚ) + ((r.upvotes : ℚ) - (r.downvotes : ℚ)) * (1 / 10) =
      1 + (1 / 10) * ((r.upvotes : ℚ) - (r.downvotes : ℚ)) from by ring]

/-- Membership in the shaped response comes from a fetched row whose
score passed the min_confidence cut, paired with its clamped rounded
score. -/
theorem mem_shapeResults {F : SqlFns} {now : ℚ} {body : LessonSearchRequest}
    {l : List LessonRow} {p : LessonRow × ℚ}
    (hp : p ∈ shapeResults F now body l) :
    p.1 ∈ l ∧ ¬ scoreSQL F now body p.1 < body.minConfidence ∧
      p.2 = round6 (max (scoreSQL F now body p.1) 0) := by
  obtain ⟨r, hrl, hcond⟩ := List.mem_filterMap.mp hp
  by_cases hlt : scoreSQL F now body r < body.minConfidence
  · rw [if_pos hlt] at hcond
    cases hcond
  · rw [if_neg hlt] at hcond
    have hp' : p = (r, round6 (max (scoreSQL F now body r) 0)) := by
      cases hcond
      rfl
    subst hp'
    exact ⟨hrl, hlt, rfl⟩

/-- C1: for every admissible database answer to the search SQL, every
entry of the response is a candidate row in the spec's sense (the SQL
filter and the spec filter agree on all rows), its SQL score equals the
spec formula (1 - cosine_distance) x confidence x exp(-0.01 age_days)
x max(1.0 + 0.1 (upvotes - downvotes), 0.1) with age_days taken from
updated_at, and the returned score is that value clamped to ≥ 0 and
rounded to 6 decimals. -/
theorem search_score_formula (F : SqlFns) (now : ℚ) (auth : AuthContext)
    (body : LessonSearchRequest) (table out : List LessonRow)
    (hdb : dbOutput F now auth body table out) :
    (∀ r, searchCandidate auth body now r = true ↔
      candidateSpecC1 auth body now r) ∧
    ∀ p ∈ shapeResults F now body out,
      p.1 ∈ table ∧ candidateSpecC1 auth body now p.1 ∧
      scoreSQL F now body p.1 = scoreSpec F now body p.1 ∧
      p.2 = round6 (max (scoreSpec F now body p.1) 0) ∧ 0 ≤ p.2 := by
  obtain ⟨sorted, hperm, hsorted, hout⟩ := hdb
  refine ⟨fun r => searchCandidate_iff auth body now r, ?_⟩
  intro p hp
  obtain ⟨hpin, hpscore, hpval⟩ := mem_shapeResults hp
  have hpsorted : p.1 ∈ sorted := List.take_subset _ _ (hout ▸ hpin)
  have hpfilter : p.1 ∈ table.filter (searchCandidate auth body now) :=
    hperm.mem_iff.mp hpsorted
  have hptable : p.1 ∈ table := List.mem_of_mem_filter hpfilter
  have hpcand : searchCandidate auth body now p.1 = true :=
    List.of_mem_filter hpfilter
  refine ⟨hptable, (searchCandidate_iff auth body now p.1).mp hpcand,
    scoreSQL_eq_scoreSpec F now body p.1, ?_, ?_⟩
  · rw [hpval, scoreSQL_eq_scoreSpec]
  · rw [hpval]
    exact round6_nonneg (le_max_right _ 0)

/-- The abstract SQL functions used in concrete search scenarios:
exp constantly one, cosine distance constantly zero. -/
def sqlFnsOne : SqlFns := ⟨fun _ => 1, fun _ _ => 0⟩

/-- The reader credential of the concrete search scenarios. -/
def searchAuth : AuthContext := ⟨"org1", none, false, "k1", "reader"⟩

/-- A candidate row for the concrete search scenarios. -/
def searchRow : LessonRow :=
  { id := "L1", orgId := "org1", problem := "p", resolution := "r",
    context := none, tags := [], confidence := 1, source := none,
    project := none, embedding := some [1], createdAt := 0, updatedAt := 0,
    expiresAt := none, upvotes := 0, downvotes := 0, meta := [] }

/-- The request of the concrete C1 search scenario. -/
def searchBody : LessonSearchRequest := ⟨[1], none, none, 5, 0⟩

/-- C1 witness: a concrete single-row database answer satisfying the
admissibility hypothesis, with the conclusion instantiated on it. -/
theorem search_score_formula_witness :
    dbOutput sqlFnsOne 0 searchAuth searchBody [searchRow] [searchRow] ∧
    ((∀ r, searchCandidate searchAuth searchBody 0 r = true ↔
        candidateSpecC1 searchAuth searchBody 0 r) ∧
      ∀ p ∈ shapeResults sqlFnsOne 0 searchBody [searchRow],
        p.1 ∈ [searchRow] ∧ candidateSpecC1 searchAuth searchBody 0 p.1 ∧
        scoreSQL sqlFnsOne 0 searchBody p.1 =
          scoreSpec sqlFnsOne 0 searchBody p.1 ∧
        p.2 = round6 (max (scoreSpec sqlFnsOne 0 searchBody p.1) 0) ∧
        0 ≤ p.2) :=
  have hdb : dbOutput sqlFnsOne 0 searchAuth searchBody [searchRow]
      [searchRow] :=
    ⟨[searchRow], List.Perm.refl [searchRow],
     List.sorted_singleton searchRow, rfl⟩
  ⟨hdb, search_score_formula sqlFnsOne 0 searchAuth searchBody
    [searchRow] [searchRow] hdb⟩

/-! ## C2: result ordering, filtering and truncation -/

/-- The rows of the shaped response are the fetched rows that pass the
min_confidence cut, in fetch order. -/
theorem shapeResults_map_fst (F : SqlFns) (now : ℚ)
    (body : LessonSearchRequest) :
    ∀ l : List LessonRow,
      (shapeResults F now body l).map Prod.fst =
        l.filter (fun r => decide (body.minConfidence ≤ scoreSQL F now body r)) := by
  intro l
  induction l with
  | nil => rfl
  | cons a t ih =>
    by_cases h : scoreSQL F now body a < body.minConfidence
    · have hd : (decide (body.minConfidence ≤ scoreSQL F now body a)) = false := by
        simpa using not_le.mpr h
      simp only [shapeResults, List.filterMap_cons, if_pos h, List.filter_cons, hd]
      simp only [shapeResults] at ih
      simpa using ih
    · have hd : (decide (body.minConfidence ≤ scoreSQL F now body a)) = true := by
        simpa using le_of_not_lt h
      simp only [shapeResults, List.filterMap_cons, if_neg h, List.filter_cons, hd]
      simp only [shapeResults] at ih
      simpa using ih

/-- A pair of candidate rows identical up to their ids "A" and "B". -/
def rowTieA : LessonRow :=
  { id := "A", orgId := "org1", problem := "p", resolution := "r",
    context := none, tags := [], confidence := 1, source := none,
    project := none, embedding := some [1], createdAt := 0, updatedAt := 0,
    expiresAt := none, upvotes := 0, downvotes := 0, meta := [] }

/-- The twin of rowTieA with id "B". -/
def rowTieB : LessonRow := { rowTieA with id := "B" }

/-- The search request of the tie scenario (limit 2, min_confidence 0). -/
def tieBody : LessonSearchRequest := ⟨[1], none, none, 2, 0⟩

/-- C2 counterexample: the SQL orders by score alone, so on two rows
with identical scores the database may return them in either order; the
answer [rowTieB, rowTieA] is admissible for the query, yet the claimed
ordering (ties by updated_at DESC then id ASC) demands [rowTieA,
rowTieB].  The response the code builds from that admissible answer
therefore differs from the list the claim specifies. -/
theorem search_ordering_claim_cex :
    dbOutput sqlFnsOne 0 searchAuth tieBody [rowTieA, rowTieB]
      [rowTieB, rowTieA] ∧
    (shapeResults sqlFnsOne 0 tieBody [rowTieB, rowTieA]).map Prod.fst ≠
      specSearchC2 sqlFnsOne 0 searchAuth tieBody [rowTieA, rowTieB] := by
  have hsA : scoreSQL sqlFnsOne 0 tieBody rowTieA = 1 := by
    norm_num [scoreSQL, sqlFnsOne, rowTieA, tieBody, max_def]
  have hsB : scoreSQL sqlFnsOne 0 tieBody rowTieB = 1 := by
    norm_num [scoreSQL, sqlFnsOne, rowTieB, rowTieA, tieBody, max_def]
  constructor
  · refine ⟨[rowTieB, rowTieA], ?_, ?_, rfl⟩
    · exact List.Perm.swap rowTieA rowTieB []
    · unfold scoreSortedDesc
      refine List.Pairwise.cons ?_ (List.pairwise_singleton _ _)
      intro b hb
      have hbA : b = rowTieA := by simpa using hb
      subst hbA
      rw [hsA, hsB]
  · have hlhs : (shapeResults sqlFnsOne 0 tieBody [rowTieB, rowTieA]).map
        Prod.fst = [rowTieB, rowTieA] := by
      rw [shapeResults_map_fst]
      simp only [List.filter_cons, List.filter_nil, hsA, hsB]
      norm_num [tieBody]
    have hle : specOrderLE sqlFnsOne 0 tieBody rowTieA rowTieB = true := by
      unfold specOrderLE
      rw [hsA, hsB]
      have hup : rowTieB.updatedAt = rowTieA.updatedAt := rfl
      rw [hup]
      have hids : decide (rowTieA.id.data < rowTieB.id.data ∨
          rowTieA.id.data = rowTieB.id.data) = true := by decide
      rw [hids]
      norm_num
    have hsort : sortB (specOrderLE sqlFnsOne 0 tieBody)
        [rowTieA, rowTieB] = [rowTieA, rowTieB] := by
      show insertB _ rowTieA
        (insertB (specOrderLE sqlFnsOne 0 tieBody) rowTieB []) = _
      rw [show insertB (specOrderLE sqlFnsOne 0 tieBody) rowTieB [] =
        [rowTieB] from rfl]
      unfold insertB
      rw [hle]
      rw [if_pos rfl]
    have hrhs : specSearchC2 sqlFnsOne 0 searchAuth tieBody
        [rowTieA, rowTieB] = [rowTieA, rowTieB] := by
      unfold specSearchC2
      rw [show List.filter (searchCandidate searchAuth tieBody 0)
        [rowTieA, rowTieB] = [rowTieA, rowTieB] from rfl]
      rw [hsort]
      simp only [List.filter_cons, List.filter_nil, hsA, hsB]
      norm_num [tieBody]
    intro hcontra
    rw [hlhs, hrhs] at hcontra
    have hhead := congrArg (fun l : List LessonRow => l.head?) hcontra
    simp only [List.head?] at hhead
    have hid : rowTieB.id = rowTieA.id := by
      have hrow : rowTieB = rowTieA := by
        injection hhead
      rw [hrow]
    exact absurd hid (by decide)

/-- C2 amended: the response is built from an admissible database
answer — candidates ordered by score descending with ties left to the
database (the SQL has no tie-break on updated_at or id), truncated to
the limit by the database, and only then filtered by min_confidence in
Python.  Because the filter key is the sort key, the response is still
sorted by score descending, every response row's score reaches
min_confidence, and the response length is min(limit, number of
candidates with score ≥ min_confidence) — in particular exactly limit
whenever at least limit candidates pass. -/
theorem search_ordering_amended (F : SqlFns) (now : ℚ) (auth : AuthContext)
    (body : LessonSearchRequest) (table out : List LessonRow)
    (hdb : dbOutput F now auth body table out) :
    scoreSortedDesc F now body ((shapeResults F now body out).map Prod.fst) ∧
    (∀ p ∈ shapeResults F now body out,
      body.minConfidence ≤ scoreSQL F now body p.1) ∧
    (shapeResults F now body out).length =
      min body.limit ((table.filter (searchCandidate auth body now)).countP
        (fun r => decide (body.minConfidence ≤ scoreSQL F now body r))) := by
  obtain ⟨sorted, hperm, hsorted, hout⟩ := hdb
  subst hout
  refine ⟨?_, ?_, ?_⟩
  · rw [shapeResults_map_fst]
    have hsub : (((sorted.take body.limit).filter
        (fun r => decide (body.minConfidence ≤ scoreSQL F now body r))).Sublist
          sorted) :=
      (List.filter_sublist _).trans (List.take_sublist _ _)
    exact List.Pairwise.sublist hsub hsorted
  · intro p hp
    exact le_of_not_lt (mem_shapeResults hp).2.1
  · have hlen : (shapeResults F now body (sorted.take body.limit)).length =
        ((sorted.take body.limit).filter
          (fun r => decide (body.minConfidence ≤ scoreSQL F now body r))).length := by
      rw [← shapeResults_map_fst, List.length_map]
    rw [hlen]
    rw [length_filter_take
      (fun a b => scoreSQL F now body b ≤ scoreSQL F now body a)
      (fun r => decide (body.minConfidence ≤ scoreSQL F now body r))
      (by
        intro a b hr hpb
        simp only [decide_eq_true_eq] at hpb ⊢
        exact le_trans hpb hr)
      sorted body.limit hsorted]
    rw [hperm.countP_eq]

/-- C2 amended witness: the concrete single-row admissible answer of the
search scenario, with the amended conclusion instantiated on it. -/
theorem search_ordering_amended_witness :
    dbOutput sqlFnsOne 0 searchAuth searchBody [searchRow] [searchRow] ∧
    (scoreSortedDesc sqlFnsOne 0 searchBody
        ((shapeResults sqlFnsOne 0 searchBody [searchRow]).map Prod.fst) ∧
      (∀ p ∈ shapeResults sqlFnsOne 0 searchBody [searchRow],
        searchBody.minConfidence ≤ scoreSQL sqlFnsOne 0 searchBody p.1) ∧
      (shapeResults sqlFnsOne 0 searchBody [searchRow]).length =
        min searchBody.limit
          (([searchRow].filter (searchCandidate searchAuth searchBody 0)).countP
            (fun r => decide (searchBody.minConfidence ≤
              scoreSQL sqlFnsOne 0 searchBody r)))) :=
  have hdb : dbOutput sqlFnsOne 0 searchAuth searchBody [searchRow]
      [searchRow] :=
    ⟨[searchRow], List.Perm.refl [searchRow],
     List.sorted_singleton searchRow, rfl⟩
  ⟨hdb, search_ordering_amended sqlFnsOne 0 searchAuth searchBody
    [searchRow] [searchRow] hdb⟩

end Lore
